import Mathlib

/-!
Verification of the command translation and dispatch protocol implemented in
`backend/main.py`.  The Python handler `execute_llm_request` builds a prompt,
invokes the model, strips code fences from the model text, parses it as JSON,
emits one `execute_command` socket event per entry of the `functions` list and
returns a `{status, message}` body.  We embed the handler shallowly: the model
invocation is an external black box, so the handler is parameterised by the
model outcome; socket emissions and the returned body are collected into an
explicit trace of actions.
-/

/-- JSON values, as produced by Python's `json.loads` (numbers restricted to
integers: no claim in scope involves floats). -/
inductive Json where
  | null : Json
  | bool : Bool → Json
  | num : Int → Json
  | str : String → Json
  | arr : List Json → Json
  | obj : List (String × Json) → Json

/-- Whitespace stripped by Python's `str.strip()`. -/
def isPyWs (c : Char) : Bool :=
  c = ' ' || c = '\t' || c = '\n' || c = '\r' || c = '\x0b' || c = '\x0c'

/-- Whitespace skipped by Python's JSON parser (`json.loads`). -/
def isJsonWs (c : Char) : Bool :=
  c = ' ' || c = '\t' || c = '\n' || c = '\r'

/-- Remove leading `str.strip()` whitespace. -/
def stripLeft (s : List Char) : List Char := s.dropWhile isPyWs

/-- Remove trailing `str.strip()` whitespace. -/
def stripRight (s : List Char) : List Char := (s.reverse.dropWhile isPyWs).reverse

/-- Python's `str.strip()`: remove leading and trailing whitespace. -/
def pyStrip (s : List Char) : List Char := stripRight (stripLeft s)

/-- Does `pat` occur as a contiguous substring of `s`?  (Python's `pat in s`.) -/
def hasSubstr (pat : List Char) : List Char → Bool
  | [] => pat.isEmpty
  | c :: cs => pat.isPrefixOf (c :: cs) || hasSubstr pat cs

/-- Fuel-indexed worker for `replaceAll`; the fuel is only a termination
device, `replaceAll` always supplies enough. -/
def replaceAllF : Nat → List Char → List Char → List Char → List Char
  | 0, _, _, s => s
  | _ + 1, _, _, [] => []
  | f + 1, pat, rep, c :: cs =>
    if pat.isPrefixOf (c :: cs) && !pat.isEmpty then
      rep ++ replaceAllF f pat rep ((c :: cs).drop pat.length)
    else
      c :: replaceAllF f pat rep cs

/-- Python's `str.replace(pat, rep)`: replace every non-overlapping occurrence
of `pat`, scanning left to right.  (For `pat = []` Python would interleave
`rep` everywhere; the code only ever replaces non-empty patterns, and this
model leaves the string unchanged in that degenerate case.) -/
def replaceAll (pat rep s : List Char) : List Char :=
  replaceAllF (s.length + 1) pat rep s

/-- The response-cleaning step of the handler:
`text.strip().replace('```json', '').replace('```', '').strip()`. -/
def cleanResponse (s : List Char) : List Char :=
  pyStrip (replaceAll ("```".data) [] (replaceAll ("```json".data) [] (pyStrip s)))

/-- Last-binding lookup in a parsed JSON object, matching Python `dict`
semantics where a later duplicate key overwrites an earlier one. -/
def objGet (kvs : List (String × Json)) (k : String) : Option Json :=
  kvs.foldl (fun acc p => if p.1 = k then some p.2 else acc) none

/-- Python `dict.get(k, d)`. -/
def objGetD (kvs : List (String × Json)) (k : String) (d : Json) : Json :=
  (objGet kvs k).getD d

/-- Escape table for JSON string bodies (`\uXXXX` escapes are not modelled;
no claim in scope involves them). -/
def escChar (c : Char) : Option Char :=
  if c = '"' then some '"'
  else if c = '\\' then some '\\'
  else if c = '/' then some '/'
  else if c = 'n' then some '\n'
  else if c = 't' then some '\t'
  else if c = 'r' then some '\r'
  else if c = 'b' then some '\x08'
  else if c = 'f' then some '\x0c'
  else none

/-- Parse the body of a JSON string after the opening quote; rejects raw
control characters as `json.loads` does. -/
def parseStrBody : Nat → List Char → List Char → Option (String × List Char)
  | 0, _, _ => none
  | _ + 1, [], _ => none
  | f + 1, c :: cs, acc =>
    if c = '"' then some (String.mk acc.reverse, cs)
    else if c = '\\' then
      match cs with
      | [] => none
      | e :: rest =>
        match escChar e with
        | some d => parseStrBody f rest (d :: acc)
        | none => none
    else if c.val < 32 then none
    else parseStrBody f cs (c :: acc)

/-- Digit-string to natural number. -/
def digitsToNat (ds : List Char) : Nat :=
  ds.foldl (fun a c => a * 10 + (c.toNat - 48)) 0

/-- Parse an integer JSON numeral (floats are outside the modelled fragment
and fail; leading zeros are rejected as in `json.loads`). -/
def parseNum (s : List Char) : Option (Json × List Char) :=
  let p := match s with
           | '-' :: t => (true, t)
           | _ => (false, s)
  let ds := p.2.takeWhile (fun c => c.isDigit)
  let rest := p.2.dropWhile (fun c => c.isDigit)
  if ds.isEmpty then none
  else if 1 < ds.length && ds.headD 'x' = '0' then none
  else
    match rest with
    | '.' :: _ => none
    | 'e' :: _ => none
    | 'E' :: _ => none
    | _ =>
      let n : Int := Int.ofNat (digitsToNat ds)
      some (Json.num (if p.1 then -n else n), rest)

mutual

/-- Parse one JSON value (leading whitespace allowed), returning the value and
the unconsumed remainder.  Fuel-indexed; `parseJson` supplies ample fuel. -/
def parseVal : Nat → List Char → Option (Json × List Char)
  | 0, _ => none
  | f + 1, s0 =>
    match List.dropWhile isJsonWs s0 with
    | [] => none
    | '\x7b' :: cs =>
      (match List.dropWhile isJsonWs cs with
       | '\x7d' :: rest => some (Json.obj [], rest)
       | cs1 => parseObjItems f cs1 [])
    | '[' :: cs =>
      (match List.dropWhile isJsonWs cs with
       | ']' :: rest => some (Json.arr [], rest)
       | cs1 => parseArrItems f cs1 [])
    | '"' :: cs =>
      (match parseStrBody (cs.length + 1) cs [] with
       | some (t, rest) => some (Json.str t, rest)
       | none => none)
    | 't' :: cs =>
      if ("rue".data).isPrefixOf cs then some (Json.bool true, cs.drop 3) else none
    | 'f' :: cs =>
      if ("alse".data).isPrefixOf cs then some (Json.bool false, cs.drop 4) else none
    | 'n' :: cs =>
      if ("ull".data).isPrefixOf cs then some (Json.null, cs.drop 3) else none
    | c :: cs => parseNum (c :: cs)

/-- Parse the members of a JSON object, positioned at the start of a key
(whitespace already skipped), accumulating parsed pairs in reverse. -/
def parseObjItems : Nat → List Char → List (String × Json) → Option (Json × List Char)
  | 0, _, _ => none
  | f + 1, s, acc =>
    match s with
    | '"' :: cs =>
      (match parseStrBody (cs.length + 1) cs [] with
       | none => none
       | some (k, rest) =>
         match List.dropWhile isJsonWs rest with
         | ':' :: rest2 =>
           (match parseVal f rest2 with
            | none => none
            | some (v, rest3) =>
              match List.dropWhile isJsonWs rest3 with
              | ',' :: rest4 => parseObjItems f (List.dropWhile isJsonWs rest4) ((k, v) :: acc)
              | '\x7d' :: rest4 => some (Json.obj ((k, v) :: acc).reverse, rest4)
              | _ => none)
         | _ => none)
    | _ => none

/-- Parse the elements of a JSON array, positioned at the start of an element
(whitespace already skipped), accumulating parsed elements in reverse. -/
def parseArrItems : Nat → List Char → List Json → Option (Json × List Char)
  | 0, _, _ => none
  | f + 1, s, acc =>
    match parseVal f s with
    | none => none
    | some (v, rest) =>
      match List.dropWhile isJsonWs rest with
      | ',' :: rest2 => parseArrItems f (List.dropWhile isJsonWs rest2) (v :: acc)
      | ']' :: rest2 => some (Json.arr (v :: acc).reverse, rest2)
      | _ => none

end

/-- Python's `json.loads` on the modelled fragment: parse one JSON document,
allowing surrounding whitespace, rejecting trailing garbage. -/
def parseJson (s : List Char) : Option Json :=
  match parseVal (2 * s.length + 2) s with
  | some (v, rest) => if List.dropWhile isJsonWs rest = [] then some v else none
  | none => none

/-! ## `json.dumps(…, indent=2)` -/

/-- Lower-case hexadecimal digit. -/
def hexDigitChar (n : Nat) : Char :=
  if n < 10 then Char.ofNat (48 + n) else Char.ofNat (87 + n)

/-- Four-digit lower-case hexadecimal rendering, as in `\uXXXX` escapes. -/
def hex4 (n : Nat) : List Char :=
  [hexDigitChar (n / 4096 % 16), hexDigitChar (n / 256 % 16),
   hexDigitChar (n / 16 % 16), hexDigitChar (n % 16)]

/-- Character escaping of Python's `json.dumps` with its default
`ensure_ascii=True`: short escapes for the usual controls, `\uXXXX` for other
controls and all non-printable-ASCII characters (surrogate pairs above the
BMP). -/
def dumpEscChar (c : Char) : List Char :=
  if c = '"' then ['\\', '"']
  else if c = '\\' then ['\\', '\\']
  else if c = '\n' then ['\\', 'n']
  else if c = '\t' then ['\\', 't']
  else if c = '\r' then ['\\', 'r']
  else if c.val = 8 then ['\\', 'b']
  else if c.val = 12 then ['\\', 'f']
  else if c.toNat < 32 then '\\' :: 'u' :: hex4 c.toNat
  else if c.toNat < 127 then [c]
  else if c.toNat < 65536 then '\\' :: 'u' :: hex4 c.toNat
  else
    ('\\' :: 'u' :: hex4 (55296 + (c.toNat - 65536) / 1024)) ++
      ('\\' :: 'u' :: hex4 (56320 + (c.toNat - 65536) % 1024))

/-- Serialize a string as a quoted JSON string. -/
def dumpStr (s : String) : List Char :=
  '"' :: s.data.foldr (fun c acc => dumpEscChar c ++ acc) ['"']

/-- `n` spaces of indentation. -/
def indentSp (n : Nat) : List Char := List.replicate n ' '

mutual

/-- `json.dumps(v, indent=2)` rendered at indentation level `lvl`. -/
def dumpVal : Json → Nat → List Char
  | Json.null, _ => "null".data
  | Json.bool true, _ => "true".data
  | Json.bool false, _ => "false".data
  | Json.num n, _ => (toString n).data
  | Json.str s, _ => dumpStr s
  | Json.arr [], _ => "[]".data
  | Json.arr (x :: xs), lvl =>
    '[' :: '\n' :: (dumpArrItems (x :: xs) (lvl + 2) ++ '\n' :: (indentSp lvl ++ [']']))
  | Json.obj [], _ => "\x7b\x7d".data
  | Json.obj (p :: ps), lvl =>
    '\x7b' :: '\n' :: (dumpObjItems (p :: ps) (lvl + 2) ++ '\n' :: (indentSp lvl ++ ['\x7d']))

/-- Array elements, one per line, comma-separated. -/
def dumpArrItems : List Json → Nat → List Char
  | [], _ => []
  | [x], lvl => indentSp lvl ++ dumpVal x lvl
  | x :: y :: xs, lvl =>
    indentSp lvl ++ dumpVal x lvl ++ ',' :: '\n' :: dumpArrItems (y :: xs) lvl

/-- Object members, one per line, comma-separated, `": "` key separator. -/
def dumpObjItems : List (String × Json) → Nat → List Char
  | [], _ => []
  | [(k, v)], lvl => indentSp lvl ++ (dumpStr k ++ ':' :: ' ' :: dumpVal v lvl)
  | (k, v) :: q :: ps, lvl =>
    indentSp lvl ++ (dumpStr k ++ ':' :: ' ' :: dumpVal v lvl) ++
      ',' :: '\n' :: dumpObjItems (q :: ps) lvl

end

/-- `json.dumps(request.data, indent=2)` for the spreadsheet snapshot dict. -/
def pyDumps (kvs : List (String × Json)) : String := String.mk (dumpVal (Json.obj kvs) 0)

/-! ## The prompt literal of `execute_llm_request` -/

/-- Text of the f-string before the serialized snapshot. -/
def promptP1 : String :=
  "\n        You are a spreadsheet assistant. Your goal is to help users by interpreting their requests and providing structured JSON responses. The user\x27s request will be in the \x27message\x27 field. You have access to the current spreadsheet data and a set of functions you can use to manipulate the data.\n\n        Spreadsheet Data:\n        "

/-- The 23 catalog lines of the prompt, one per operation, in source order. -/
def promptFunctionLines : List String :=
  [ "- update_cell(col, row, value): Updates the value of a specific cell."
  , "- remove_cell(col, row): Removes the value of a specific cell."
  , "- get_cell(col, row): Retrieves the value of a specific cell."
  , "- sum_col(col): Calculates the sum of a column."
  , "- avg_col(col): Calculates the average of a column."
  , "- count_col(col): Counts the number of non-empty cells in a column."
  , "- max_col(col): Finds the maximum value in a column."
  , "- min_col(col): Finds the minimum value in a column."
  , "- add_col(col): Adds a new column."
  , "- del_col(col): Deletes a column."
  , "- sum_row(row): Calculates the sum of a row."
  , "- avg_row(row): Calculates the average of a row."
  , "- count_row(row): Counts the number of non-empty cells in a row."
  , "- max_row(row): Finds the maximum value in a row."
  , "- min_row(row): Finds the minimum value in a row."
  , "- add_row(row): Adds a new row."
  , "- del_row(row): Deletes a row."
  , "- sum_range(startCol, startRow, endCol, endRow): Calculates the sum of a range of cells."
  , "- avg_range(startCol, startRow, endCol, endRow): Calculates the average of a range of cells."
  , "- clear_range(startCol, startRow, endCol, endRow): Clears a range of cells."
  , "- clear_all(): Clears the entire spreadsheet."
  , "- find_cell(value): Finds a cell with a specific value."
  , "- replace_all(oldValue, newValue): Replaces all occurrences of a value." ]

/-- Separator between catalog lines: newline plus the f-string's 8-space
indentation. -/
def promptLineSep : String := "\n        "

/-- Join the catalog lines with the prompt's line separator. -/
def joinLines : List String → String
  | [] => ""
  | [l] => l
  | l :: l2 :: ls => l ++ promptLineSep ++ joinLines (l2 :: ls)

/-- Text of the f-string between the snapshot and the catalog. -/
def promptP2a : String := "\n\n        Available Functions:\n        "

/-- Text of the f-string between the catalog and the user message. -/
def promptP2b : String := "\n\n        User Message: \""

/-- Text of the f-string after the user message: the output contract and the
worked example. -/
def promptP3 : String :=
  "\"\n\n        Your response must be a JSON object with two keys: \x27message\x27 and \x27functions\x27.\n        - \x27message\x27: A user-friendly message to be displayed in the chat.\n        - \x27functions\x27: A list of function calls to be executed on the spreadsheet.\n\n        Example Response:\n        \x7b\n          \"message\": \"I have calculated the sum of column A and placed it in cell B1.\",\n          \"functions\": [\"sum_col(\x27A\x27)\", \"update_cell(\x27B\x27, 1, \x27SUM_RESULT\x27)\"]\n        \x7d\n        "

/-- The prompt f-string of `execute_llm_request`, with the snapshot and the
user message interpolated. -/
def buildPrompt (data : List (String × Json)) (message : String) : String :=
  promptP1 ++ pyDumps data ++ promptP2a ++ joinLines promptFunctionLines ++
    promptP2b ++ message ++ promptP3

/-! ## The request handler -/

/-- The body of `POST /execute_llm_request` (pydantic model `LLMRequest`). -/
structure LLMRequest where
  data : List (String × Json)
  message : String
  apiKey : String

/-- Outcome of the external model invocation (`genai` configuration,
`generate_content` and the `.text` access): either the raw response text or a
raised exception's message. -/
inductive ModelOutcome where
  | ok : String → ModelOutcome
  | fail : String → ModelOutcome

/-- Observable steps of the handler: a Socket.IO `sio.emit(event, payload)`
broadcast, or returning the HTTP response body. -/
inductive HandlerAction where
  | emit : String → Json → HandlerAction
  | respond : Json → HandlerAction

/-- Stands for `str(e)` of the `json.JSONDecodeError` raised by `json.loads`;
the position detail in the text is abstracted. -/
def jsonDecodeErrMsg : String := "JSONDecodeError"

/-- `str(e)` of the `TypeError` raised by `'functions' in x` for
non-container `x`. -/
def notIterableMsg (tyName : String) : String :=
  "argument of type \x27" ++ tyName ++ "\x27 is not iterable"

/-- `str(e)` of the `TypeError` raised by `s['functions']` on a string. -/
def strIndicesMsg : String := "string indices must be integers"

/-- `str(e)` of the `TypeError` raised by `l['functions']` on a list. -/
def listIndicesMsg : String := "list indices must be integers or slices, not str"

/-- `str(e)` of the `AttributeError` raised by `x.get(…)` on a non-dict. -/
def noGetAttrMsg (tyName : String) : String :=
  "\x27" ++ tyName ++ "\x27 object has no attribute \x27get\x27"

/-- The `{"status": "success", "message": …}` return value. -/
def successBody (m : Json) : Json :=
  Json.obj [("status", Json.str ("success")), ("message", m)]

/-- The `{"status": "error", "message": str(e)}` return value of the
`except` clause. -/
def errorBody (m : String) : Json :=
  Json.obj [("status", Json.str ("error")), ("message", Json.str m)]

/-- Python `x == 'functions'` for a JSON value (used by `in` on lists). -/
def eqStrFunctions : Json → Bool
  | Json.str s => s = "functions"
  | _ => false

/-- `sio.emit('execute_command', {'command': func_call})`. -/
def mkCommandEvent (f : Json) : HandlerAction :=
  HandlerAction.emit ("execute_command") (Json.obj [("command", f)])

/-- The handler's behaviour after `json.loads` succeeded on the cleaned
response, covering Python's semantics of `'functions' in response_json`,
subscripting and `.get` for every possible parsed value. -/
def handleParsed : Json → List HandlerAction
  | Json.obj kvs =>
    (match objGet kvs ("functions") with
     | some (Json.arr fs) => fs.map mkCommandEvent
     | _ => []) ++ [HandlerAction.respond (successBody (objGetD kvs ("message") (Json.str (""))))]
  | Json.str s =>
    if hasSubstr ("functions".data) s.data then
      [HandlerAction.respond (errorBody strIndicesMsg)]
    else
      [HandlerAction.respond (errorBody (noGetAttrMsg ("str")))]
  | Json.arr xs =>
    if xs.any eqStrFunctions then
      [HandlerAction.respond (errorBody listIndicesMsg)]
    else
      [HandlerAction.respond (errorBody (noGetAttrMsg ("list")))]
  | Json.null => [HandlerAction.respond (errorBody (notIterableMsg ("NoneType")))]
  | Json.bool _ => [HandlerAction.respond (errorBody (notIterableMsg ("bool")))]
  | Json.num _ => [HandlerAction.respond (errorBody (notIterableMsg ("int")))]

/-- The `execute_llm_request` handler, parameterised by the external model
(`prompt ↦ outcome`); yields the ordered trace of emitted events followed by
the returned body.  Every exception raised inside the `try` block is caught
and converted by the `except` clause. -/
def execute_llm_request (req : LLMRequest) (model : String → ModelOutcome) : List HandlerAction :=
  match model (buildPrompt req.data req.message) with
  | ModelOutcome.fail e => [HandlerAction.respond (errorBody e)]
  | ModelOutcome.ok text =>
    match parseJson (cleanResponse text.data) with
    | none => [HandlerAction.respond (errorBody jsonDecodeErrMsg)]
    | some rj => handleParsed rj

/-- The event payloads broadcast by a trace, in order. -/
def traceEmits (t : List HandlerAction) : List Json :=
  t.filterMap (fun a => match a with
    | HandlerAction.emit _ payload => some payload
    | _ => none)

/-- The response bodies returned by a trace. -/
def traceResponses (t : List HandlerAction) : List Json :=
  t.filterMap (fun a => match a with
    | HandlerAction.respond b => some b
    | _ => none)

/-- Python subscript `v['k']`: defined (`some`) exactly on dicts containing
the key; raises (`none`) otherwise. -/
def pySubscript (v : Json) (k : String) : Option Json :=
  match v with
  | Json.obj kvs => objGet kvs k
  | _ => none

/-- The `function_result` event handler: prints `data['result']`; yields the
printed value when the subscript succeeds, `none` when it raises. -/
def handle_function_result (sid : String) (data : Json) : Option Json :=
  pySubscript data ("result")

/-! ## Code-fence stripping lemmas -/

/-- The backtick character. -/
def btick : Char := '\x60'

/-- The character list of the pattern removed first by the cleaning step. -/
def fenceJsonPat : List Char :=
  btick :: btick :: btick :: 'j' :: 's' :: 'o' :: 'n' :: []

/-- The character list of the pattern removed second by the cleaning step. -/
def fencePat : List Char := btick :: btick :: btick :: []

/-- The canonical code-fence wrapping a model puts around a JSON blob. -/
def fenceWrap (b : List Char) : List Char :=
  ("```json\n".data) ++ b ++ ("\n```".data)

/-! ## Trace and handler lemmas -/

/-- Is an optional JSON value present and a list?  (`isinstance(x, list)` on
the looked-up `functions` value, `false` when the key is absent.) -/
def isArrVal : Option Json → Bool
  | some (Json.arr _) => true
  | _ => false

/-- Is a JSON value an object (a Python dict)? -/
def jIsObj : Json → Bool
  | Json.obj _ => true
  | _ => false

/-- The payload of a single-command event. -/
def mkCmdJson (f : Json) : Json := Json.obj [("command", f)]

/-- `status` field of the unique response body of a trace, when the trace has
exactly one response and it is an object. -/
def responseStatus (t : List HandlerAction) : Option Json :=
  match traceResponses t with
  | [Json.obj kvs] => objGet kvs ("status")
  | _ => none

/-- Does the cleaned model output parse to a JSON object (a Python dict)? -/
def parsesToObj : Option Json → Bool
  | some v => jIsObj v
  | none => false

/-! ## Concrete scenario inputs -/

/-- A request with an empty snapshot. -/
def req0 : LLMRequest := LLMRequest.mk [] ("sum column A into B1") ("key")

/-- A model stub returning fixed text regardless of the prompt. -/
def constModel (t : String) : String → ModelOutcome := fun _ => ModelOutcome.ok t

/-- Scenario 3 model output: a `functions` list naming an operation outside
the vocabulary. -/
def scen3Text : String := "\x7b\"message\": \"ok\", \"functions\": [\"delete_everything()\"]\x7d"

/-- Scenario 1 model output. -/
def scen1Text : String :=
  "\x7b\"message\": \"Done\", \"functions\": [\"sum_col(\x27A\x27)\", \"update_cell(\x27B\x27, 1, \x27SUM_RESULT\x27)\"]\x7d"

/-- Model output that is a JSON object with neither required key. -/
def emptyObjText : String := "\x7b\x7d"

/-- The operation name before the parenthesis of an operation-call string. -/
def callName (s : String) : String := String.mk (s.data.takeWhile (fun c => c ≠ '('))

/-- The operation vocabulary: the name of each catalog line of the prompt
(dropping the leading `"- "` of the line). -/
def operationNames : List String :=
  promptFunctionLines.map (fun l => callName (String.mk (l.data.drop 2)))

/-! ## Theorems -/

example : parseJson ("\x7b\x7d".data) = some (Json.obj []) := rfl

/-! ## Substring and `isPrefixOf` lemmas -/

theorem isPrefixOfSelfApp (l t : List Char) : l.isPrefixOf (l ++ t) = true := by
  induction l with
  | nil => simp only [List.nil_append, List.isPrefixOf]
  | cons c cs ih =>
    simp only [List.cons_append, List.isPrefixOf, beq_self_eq_true, Bool.true_and]
    exact ih

theorem isPrefixOfExt (p s t : List Char) (h : p.isPrefixOf s = true) :
    p.isPrefixOf (s ++ t) = true := by
  induction p generalizing s with
  | nil => simp only [List.isPrefixOf]
  | cons c cs ih =>
    cases s with
    | nil =>
      simp only [List.isPrefixOf] at h
      exact Bool.noConfusion h
    | cons b bs =>
      simp only [List.cons_append, List.isPrefixOf, Bool.and_eq_true, beq_iff_eq] at h ⊢
      exact ⟨h.1, ih bs h.2⟩

theorem isPrefixOfTrans (p q r : List Char) (h1 : p.isPrefixOf q = true)
    (h2 : q.isPrefixOf r = true) : p.isPrefixOf r = true := by
  induction p generalizing q r with
  | nil => simp only [List.isPrefixOf]
  | cons c cs ih =>
    cases q with
    | nil =>
      simp only [List.isPrefixOf] at h1
      exact Bool.noConfusion h1
    | cons b bs =>
      cases r with
      | nil =>
        simp only [List.isPrefixOf] at h2
        exact Bool.noConfusion h2
      | cons a as =>
        simp only [List.isPrefixOf, Bool.and_eq_true, beq_iff_eq] at h1 h2 ⊢
        exact ⟨h1.1.trans h2.1, ih bs as h1.2 h2.2⟩

theorem hasSubstrNil (t : List Char) : hasSubstr [] t = true := by
  cases t with
  | nil => rfl
  | cons c cs => simp only [hasSubstr, List.isPrefixOf, Bool.true_or]

theorem hasSubstrHere (pat t : List Char) : hasSubstr pat (pat ++ t) = true := by
  cases pat with
  | nil => exact hasSubstrNil t
  | cons c cs =>
    have hp := isPrefixOfSelfApp (c :: cs) t
    simp only [List.cons_append] at hp ⊢
    simp only [hasSubstr, hp, Bool.true_or]

theorem hasSubstrSelf (l : List Char) : hasSubstr l l = true := by
  have h := hasSubstrHere l []
  simpa using h

theorem hasSubstrAppL (pat s t : List Char) (h : hasSubstr pat t = true) :
    hasSubstr pat (s ++ t) = true := by
  induction s with
  | nil => simpa using h
  | cons c cs ih =>
    simp only [List.cons_append, hasSubstr, Bool.or_eq_true]
    exact Or.inr ih

theorem hasSubstrAppR (pat s t : List Char) (h : hasSubstr pat s = true) :
    hasSubstr pat (s ++ t) = true := by
  induction s with
  | nil =>
    simp only [hasSubstr, List.isEmpty_iff] at h
    subst h
    exact hasSubstrNil t
  | cons c cs ih =>
    simp only [hasSubstr, Bool.or_eq_true] at h
    simp only [List.cons_append, hasSubstr, Bool.or_eq_true]
    cases h with
    | inl hp => exact Or.inl (isPrefixOfExt _ _ _ hp)
    | inr hs => exact Or.inr (ih hs)

theorem hasSubstrMono (p q s : List Char) (hpq : p.isPrefixOf q = true)
    (h : hasSubstr q s = true) : hasSubstr p s = true := by
  induction s with
  | nil =>
    simp only [hasSubstr, List.isEmpty_iff] at h
    subst h
    cases p with
    | nil => rfl
    | cons c cs =>
      simp only [List.isPrefixOf] at hpq
      exact Bool.noConfusion hpq
  | cons c cs ih =>
    simp only [hasSubstr, Bool.or_eq_true] at h ⊢
    cases h with
    | inl hp => exact Or.inl (isPrefixOfTrans _ _ _ hpq hp)
    | inr hs => exact Or.inr (ih hs)

/-! ## `str.strip()` lemmas -/

theorem dropWhileLenLe (p : Char → Bool) (s : List Char) :
    (List.dropWhile p s).length ≤ s.length := by
  induction s with
  | nil => simp
  | cons c cs ih =>
    by_cases h : p c = true
    · simp only [List.dropWhile_cons, h, if_true, List.length_cons]
      exact le_trans ih (Nat.le_succ _)
    · simp [List.dropWhile_cons, h]

theorem dropWhileEqOfLen (p : Char → Bool) (s : List Char)
    (h : (List.dropWhile p s).length = s.length) : List.dropWhile p s = s := by
  induction s with
  | nil => rfl
  | cons c cs ih =>
    by_cases hc : p c = true
    · exfalso
      rw [List.dropWhile_cons, if_pos hc] at h
      have h1 := dropWhileLenLe p cs
      simp only [List.length_cons] at h
      omega
    · rw [List.dropWhile_cons, if_neg hc]

theorem stripLeftLenLe (s : List Char) : (stripLeft s).length ≤ s.length :=
  dropWhileLenLe _ s

theorem stripRightLenLe (s : List Char) : (stripRight s).length ≤ s.length := by
  simp only [stripRight, List.length_reverse]
  calc (List.dropWhile isPyWs s.reverse).length ≤ s.reverse.length := dropWhileLenLe _ _
  _ = s.length := List.length_reverse s

theorem stripLeftFix (s : List Char) (h : pyStrip s = s) : stripLeft s = s := by
  have h1 : (pyStrip s).length = s.length := by rw [h]
  have h2 : (stripRight (stripLeft s)).length ≤ (stripLeft s).length := stripRightLenLe _
  have h3 : (stripLeft s).length ≤ s.length := stripLeftLenLe s
  have h4 : (stripLeft s).length = s.length := by
    simp only [pyStrip] at h1
    omega
  exact dropWhileEqOfLen _ _ h4

theorem stripRightFix (s : List Char) (h : pyStrip s = s) : stripRight s = s := by
  have hl := stripLeftFix s h
  calc stripRight s = stripRight (stripLeft s) := by rw [hl]
  _ = s := h

theorem headNotWs (c : Char) (cs : List Char)
    (h : stripLeft (c :: cs) = c :: cs) : isPyWs c = false := by
  cases hc : isPyWs c with
  | false => rfl
  | true =>
    exfalso
    rw [stripLeft, List.dropWhile_cons, if_pos hc] at h
    have h1 := dropWhileLenLe isPyWs cs
    have h2 := congrArg List.length h
    simp only [List.length_cons] at h2
    omega

theorem stripLeftConsNoWs (c : Char) (s : List Char) (hc : isPyWs c = false) :
    stripLeft (c :: s) = c :: s := by
  rw [stripLeft, List.dropWhile_cons, if_neg (by simp [hc])]

theorem stripRightSnocNoWs (s : List Char) (c : Char) (hc : isPyWs c = false) :
    stripRight (s ++ [c]) = s ++ [c] := by
  rw [stripRight, List.reverse_append]
  simp only [List.reverse_cons, List.reverse_nil, List.nil_append, List.singleton_append]
  rw [List.dropWhile_cons, if_neg (by simp [hc])]
  simp [List.reverse_cons]

theorem pyStripWrapNl (blob : List Char) (h : pyStrip blob = blob) :
    pyStrip ('\n' :: (blob ++ ['\n'])) = blob := by
  cases blob with
  | nil => rfl
  | cons b bs =>
    have hSL : stripLeft (b :: bs) = b :: bs := stripLeftFix _ h
    have hSR : stripRight (b :: bs) = b :: bs := stripRightFix _ h
    have hb : isPyWs b = false := headNotWs b bs hSL
    have h1 : stripLeft ('\n' :: ((b :: bs) ++ ['\n'])) = (b :: bs) ++ ['\n'] := by
      rw [stripLeft, List.dropWhile_cons, if_pos (by decide)]
      simp only [List.cons_append]
      rw [List.dropWhile_cons, if_neg (by simp [hb])]
    have h2 : stripRight ((b :: bs) ++ ['\n']) = stripRight (b :: bs) := by
      rw [stripRight, stripRight, List.reverse_append]
      simp only [List.reverse_cons, List.reverse_nil, List.nil_append, List.singleton_append]
      rw [List.dropWhile_cons, if_pos (by decide)]
    calc pyStrip ('\n' :: ((b :: bs) ++ ['\n']))
        = stripRight (stripLeft ('\n' :: ((b :: bs) ++ ['\n']))) := rfl
    _ = stripRight ((b :: bs) ++ ['\n']) := by rw [h1]
    _ = stripRight (b :: bs) := h2
    _ = b :: bs := hSR

/-! ## `str.replace` lemmas -/

theorem replaceAllFIrrel (pat rep : List Char) (f g : Nat) (s : List Char)
    (hf : s.length < f) (hg : s.length < g) :
    replaceAllF f pat rep s = replaceAllF g pat rep s := by
  induction f generalizing g s with
  | zero => omega
  | succ f ih =>
    cases g with
    | zero => omega
    | succ g =>
      cases s with
      | nil => rfl
      | cons c cs =>
        simp only [replaceAllF]
        by_cases hm : (pat.isPrefixOf (c :: cs) && !pat.isEmpty) = true
        · rw [if_pos hm, if_pos hm]
          have hp : 1 ≤ pat.length := by
            cases pat with
            | nil => simp at hm
            | cons _ _ => simp
          have hd : ((c :: cs).drop pat.length).length = (c :: cs).length - pat.length :=
            List.length_drop _ _
          simp only [List.length_cons] at hf hg hd
          exact congrArg (rep ++ ·) (ih g _ (by omega) (by omega))
        · rw [if_neg hm, if_neg hm]
          simp only [List.length_cons] at hf hg
          exact congrArg (c :: ·) (ih g cs (by omega) (by omega))

theorem replaceAllNone (pat rep s : List Char) (h : hasSubstr pat s = false) :
    replaceAll pat rep s = s := by
  induction s with
  | nil => rfl
  | cons c cs ih =>
    simp only [hasSubstr, Bool.or_eq_false_iff] at h
    show replaceAllF ((c :: cs).length + 1) pat rep (c :: cs) = c :: cs
    simp only [List.length_cons, replaceAllF]
    rw [h.1]
    simp only [Bool.false_and, Bool.false_eq_true, if_false]
    exact congrArg (c :: ·) (ih h.2)

theorem replaceAllCons (pc c : Char) (pr rep cs : List Char) (hne : c ≠ pc) :
    replaceAll (pc :: pr) rep (c :: cs) = c :: replaceAll (pc :: pr) rep cs := by
  show replaceAllF ((c :: cs).length + 1) _ _ _ = _
  simp only [List.length_cons, replaceAllF]
  have hp : (pc :: pr).isPrefixOf (c :: cs) = false := by
    have hb : (pc == c) = false := by
      rw [beq_eq_false_iff_ne]
      exact fun hh => hne hh.symm
    simp only [List.isPrefixOf, hb, Bool.false_and]
  rw [hp]
  simp only [Bool.false_and, Bool.false_eq_true, if_false]
  rfl

theorem replaceAllConsume (pc : Char) (pr rep t : List Char) :
    replaceAll (pc :: pr) rep ((pc :: pr) ++ t) = rep ++ replaceAll (pc :: pr) rep t := by
  show replaceAllF (((pc :: pr) ++ t).length + 1) _ _ _ = _
  have hp := isPrefixOfSelfApp (pc :: pr) t
  have hd := List.drop_left (pc :: pr) t
  simp only [List.cons_append, List.length_cons, List.length_append] at hp hd ⊢
  simp only [replaceAllF, hp, List.isEmpty_cons, Bool.not_false, Bool.and_self, if_true]
  simp only [List.length_cons]
  rw [hd]
  exact congrArg (rep ++ ·) (replaceAllFIrrel _ _ _ _ _ (by omega) (by omega))

theorem replaceAllSkipAll (pc : Char) (pr rep s t : List Char)
    (hs : ∀ c ∈ s, c ≠ pc) :
    replaceAll (pc :: pr) rep (s ++ t) = s ++ replaceAll (pc :: pr) rep t := by
  induction s with
  | nil => simp
  | cons c cs ih =>
    have hc : c ≠ pc := hs c (List.mem_cons_self c cs)
    have h1 : replaceAll (pc :: pr) rep (c :: (cs ++ t)) =
        c :: replaceAll (pc :: pr) rep (cs ++ t) := replaceAllCons pc c pr rep (cs ++ t) hc
    simp only [List.cons_append]
    rw [h1, ih (fun x hx => hs x (List.mem_cons_of_mem _ hx))]

theorem fenceJsonPatData : ("```json".data) = fenceJsonPat := rfl

theorem fencePatData : ("```".data) = fencePat := rfl

theorem cleanNoFence (s : List Char) (hf : hasSubstr ("```".data) s = false)
    (hs : pyStrip s = s) : cleanResponse s = s := by
  have hj : hasSubstr ("```json".data) s = false := by
    cases hjj : hasSubstr ("```json".data) s with
    | false => rfl
    | true =>
      have h2 := hasSubstrMono ("```".data) ("```json".data) s (by decide) hjj
      rw [hf] at h2
      exact Bool.noConfusion h2
  show pyStrip (replaceAll ("```".data) [] (replaceAll ("```json".data) [] (pyStrip s))) = s
  rw [hs, replaceAllNone _ _ _ hj, replaceAllNone _ _ _ hf, hs]

theorem pyStripFixBtickEnds (mid : List Char) :
    pyStrip (btick :: (mid ++ [btick])) = btick :: (mid ++ [btick]) := by
  have h1 := stripLeftConsNoWs btick (mid ++ [btick]) (by decide)
  have h2 : stripRight ((btick :: mid) ++ [btick]) = (btick :: mid) ++ [btick] :=
    stripRightSnocNoWs (btick :: mid) btick (by decide)
  show stripRight (stripLeft (btick :: (mid ++ [btick]))) = _
  rw [h1]
  have h3 : btick :: (mid ++ [btick]) = (btick :: mid) ++ [btick] := by simp
  rw [h3, h2]

theorem fenceWrapShape (blob : List Char) :
    fenceWrap blob = fenceJsonPat ++ ('\n' :: (blob ++ ('\n' :: fencePat))) := by
  have e1 : ("```json\n".data) = fenceJsonPat ++ ['\n'] := rfl
  have e2 : ("\n```".data) = '\n' :: fencePat := rfl
  show ("```json\n".data) ++ blob ++ ("\n```".data) = _
  rw [e1, e2]
  simp [List.append_assoc]

theorem pyStripFenceWrap (blob : List Char) :
    pyStrip (fenceWrap blob) = fenceWrap blob := by
  have hsh : fenceWrap blob =
      btick :: ((btick :: btick :: 'j' :: 's' :: 'o' :: 'n' :: '\n' ::
        (blob ++ ('\n' :: btick :: btick :: []))) ++ [btick]) := by
    rw [fenceWrapShape]
    simp [fenceJsonPat, fencePat, List.append_assoc]
  rw [hsh]
  exact pyStripFixBtickEnds _

theorem replaceFenceJson (blob : List Char) (hb : ∀ c ∈ blob, c ≠ btick) :
    replaceAll fenceJsonPat [] (fenceWrap blob) = '\n' :: (blob ++ ('\n' :: fencePat)) := by
  rw [fenceWrapShape]
  have hc : replaceAll fenceJsonPat [] (fenceJsonPat ++ ('\n' :: (blob ++ ('\n' :: fencePat)))) =
      [] ++ replaceAll fenceJsonPat [] ('\n' :: (blob ++ ('\n' :: fencePat))) :=
    replaceAllConsume btick _ [] _
  rw [hc, List.nil_append]
  have hskip : replaceAll fenceJsonPat [] ('\n' :: (blob ++ ('\n' :: fencePat))) =
      '\n' :: replaceAll fenceJsonPat [] (blob ++ ('\n' :: fencePat)) :=
    replaceAllCons btick '\n' _ [] _ (by decide)
  rw [hskip]
  have hall : replaceAll fenceJsonPat [] (blob ++ ('\n' :: fencePat)) =
      blob ++ replaceAll fenceJsonPat [] ('\n' :: fencePat) :=
    replaceAllSkipAll btick _ [] blob _ hb
  rw [hall]
  have hconc : replaceAll fenceJsonPat [] ('\n' :: fencePat) = '\n' :: fencePat := by decide
  rw [hconc]

theorem replaceFence (blob : List Char) (hb : ∀ c ∈ blob, c ≠ btick) :
    replaceAll fencePat [] ('\n' :: (blob ++ ('\n' :: fencePat))) = '\n' :: (blob ++ ['\n']) := by
  have hskip : replaceAll fencePat [] ('\n' :: (blob ++ ('\n' :: fencePat))) =
      '\n' :: replaceAll fencePat [] (blob ++ ('\n' :: fencePat)) :=
    replaceAllCons btick '\n' _ [] _ (by decide)
  rw [hskip]
  have hall : replaceAll fencePat [] (blob ++ ('\n' :: fencePat)) =
      blob ++ replaceAll fencePat [] ('\n' :: fencePat) :=
    replaceAllSkipAll btick _ [] blob _ hb
  rw [hall]
  have hconc : replaceAll fencePat [] ('\n' :: fencePat) = ['\n'] := by decide
  rw [hconc]

theorem cleanFence (blob : List Char) (hb : ∀ c ∈ blob, c ≠ btick)
    (hs : pyStrip blob = blob) : cleanResponse (fenceWrap blob) = blob := by
  show pyStrip (replaceAll ("```".data) []
      (replaceAll ("```json".data) [] (pyStrip (fenceWrap blob)))) = blob
  rw [fenceJsonPatData, fencePatData, pyStripFenceWrap, replaceFenceJson blob hb,
    replaceFence blob hb]
  exact pyStripWrapNl blob hs

theorem traceEmitsAppend (a b : List HandlerAction) :
    traceEmits (a ++ b) = traceEmits a ++ traceEmits b :=
  List.filterMap_append a b _

theorem traceResponsesAppend (a b : List HandlerAction) :
    traceResponses (a ++ b) = traceResponses a ++ traceResponses b :=
  List.filterMap_append a b _

theorem traceEmitsMapCmd (fs : List Json) :
    traceEmits (fs.map mkCommandEvent) = fs.map mkCmdJson := by
  induction fs with
  | nil => rfl
  | cons f fs ih =>
    simp only [List.map_cons, traceEmits, List.filterMap_cons] at ih ⊢
    rw [ih]
    rfl

theorem traceResponsesMapCmd (fs : List Json) :
    traceResponses (fs.map mkCommandEvent) = [] := by
  induction fs with
  | nil => rfl
  | cons f fs ih =>
    simp only [List.map_cons, traceResponses, List.filterMap_cons] at ih ⊢
    rw [ih]
    rfl

theorem statusSuccessBody (m : Json) :
    responseStatus [HandlerAction.respond (successBody m)] = some (Json.str ("success")) := rfl

theorem statusErrorBody (e : String) :
    responseStatus [HandlerAction.respond (errorBody e)] = some (Json.str ("error")) := rfl

theorem handleParsedObj (kvs : List (String × Json)) (fs : List Json)
    (hf : objGet kvs ("functions") = some (Json.arr fs)) :
    handleParsed (Json.obj kvs) =
      fs.map mkCommandEvent ++
        [HandlerAction.respond (successBody (objGetD kvs ("message") (Json.str (""))))] := by
  simp only [handleParsed, hf]

theorem handleParsedObjNoFun (kvs : List (String × Json))
    (hf : isArrVal (objGet kvs ("functions")) = false) :
    handleParsed (Json.obj kvs) =
      [HandlerAction.respond (successBody (objGetD kvs ("message") (Json.str (""))))] := by
  simp only [handleParsed]
  cases hget : objGet kvs ("functions") with
  | none => simp
  | some v =>
    cases v with
    | arr fs =>
      rw [hget] at hf
      simp [isArrVal] at hf
    | null => simp
    | bool b => simp
    | num n => simp
    | str s => simp
    | obj o => simp

theorem responseStatusEmitsSucc (fs : List Json) (m : Json) :
    responseStatus (fs.map mkCommandEvent ++ [HandlerAction.respond (successBody m)]) =
      some (Json.str ("success")) := by
  unfold responseStatus
  rw [traceResponsesAppend, traceResponsesMapCmd, List.nil_append]
  rfl

theorem statusHandleParsedObj (kvs : List (String × Json)) :
    responseStatus (handleParsed (Json.obj kvs)) = some (Json.str ("success")) := by
  cases hget : objGet kvs ("functions") with
  | some v =>
    cases v with
    | arr fs =>
      rw [handleParsedObj kvs fs hget]
      exact responseStatusEmitsSucc fs _
    | null =>
      rw [handleParsedObjNoFun kvs (by rw [hget]; rfl)]
      exact statusSuccessBody _
    | bool b =>
      rw [handleParsedObjNoFun kvs (by rw [hget]; rfl)]
      exact statusSuccessBody _
    | num n =>
      rw [handleParsedObjNoFun kvs (by rw [hget]; rfl)]
      exact statusSuccessBody _
    | str s =>
      rw [handleParsedObjNoFun kvs (by rw [hget]; rfl)]
      exact statusSuccessBody _
    | obj o =>
      rw [handleParsedObjNoFun kvs (by rw [hget]; rfl)]
      exact statusSuccessBody _
  | none =>
    rw [handleParsedObjNoFun kvs (by rw [hget]; rfl)]
    exact statusSuccessBody _

theorem statusHandleParsedNonObj (rj : Json) (h : jIsObj rj = false) :
    responseStatus (handleParsed rj) = some (Json.str ("error")) := by
  cases rj with
  | obj kvs => simp [jIsObj] at h
  | str s =>
    simp only [handleParsed]
    by_cases hh : hasSubstr ("functions".data) s.data = true
    · rw [if_pos hh]
      exact statusErrorBody _
    · rw [if_neg hh]
      exact statusErrorBody _
  | arr xs =>
    simp only [handleParsed]
    by_cases hh : xs.any eqStrFunctions = true
    · rw [if_pos hh]
      exact statusErrorBody _
    · rw [if_neg hh]
      exact statusErrorBody _
  | null => exact statusErrorBody _
  | bool b => exact statusErrorBody _
  | num n => exact statusErrorBody _

/-! ## Prompt containment lemmas -/

theorem strDataApp (s t : String) : (s ++ t).data = s.data ++ t.data := rfl

theorem buildPromptData (data : List (String × Json)) (msg : String) :
    (buildPrompt data msg).data =
      promptP1.data ++ ((pyDumps data).data ++ (promptP2a.data ++
        ((joinLines promptFunctionLines).data ++
          (promptP2b.data ++ (msg.data ++ promptP3.data))))) := by
  show (promptP1 ++ pyDumps data ++ promptP2a ++ joinLines promptFunctionLines ++
      promptP2b ++ msg ++ promptP3).data = _
  simp only [strDataApp, List.append_assoc]

theorem hasSubstrJoin (l : String) (ls : List String) (h : l ∈ ls) :
    hasSubstr l.data (joinLines ls).data = true := by
  induction ls with
  | nil => cases h
  | cons x xs ih =>
    cases xs with
    | nil =>
      cases h with
      | head => exact hasSubstrSelf _
      | tail _ h2 => cases h2
    | cons y ys =>
      show hasSubstr l.data ((x ++ promptLineSep ++ joinLines (y :: ys)).data) = true
      cases h with
      | head =>
        rw [strDataApp, strDataApp, List.append_assoc]
        exact hasSubstrHere _ _
      | tail _ h2 =>
        rw [strDataApp, strDataApp, List.append_assoc]
        exact hasSubstrAppL _ _ _ (hasSubstrAppL _ _ _ (ih h2))

example : operationNames.length = 23 := by decide

example : "sum_col" ∈ operationNames := by decide

/-! ## Claims -/

/-- Claim C1 counterexample: on the scenario-3 model response, whose
`functions` list contains the out-of-vocabulary call `delete_everything()`,
the handler dispatches the event anyway and returns status `success` — not an
`UnknownOperationError` with zero events as claimed. -/
theorem C1_counterexample :
    traceEmits (execute_llm_request req0 (constModel scen3Text)) =
      [mkCmdJson (Json.str ("delete_everything()"))] ∧
    responseStatus (execute_llm_request req0 (constModel scen3Text)) =
      some (Json.str ("success")) ∧
    callName ("delete_everything()") ∉ operationNames :=
  ⟨rfl, rfl, by decide⟩

/-- Claim C1 (amended): the handler performs no vocabulary validation at all:
when the parsed response object carries a `functions` list containing a call
string `c` whose operation name is outside the vocabulary, the
`execute_command` event for `c` is dispatched anyway and the gateway returns
status `success`. -/
theorem C1_amended (req : LLMRequest) (model : String → ModelOutcome) (text : String)
    (kvs : List (String × Json)) (fs : List Json) (c : String)
    (hm : model (buildPrompt req.data req.message) = ModelOutcome.ok text)
    (hp : parseJson (cleanResponse text.data) = some (Json.obj kvs))
    (hf : objGet kvs ("functions") = some (Json.arr fs))
    (hc : Json.str c ∈ fs)
    (hunk : callName c ∉ operationNames) :
    mkCommandEvent (Json.str c) ∈ execute_llm_request req model ∧
    responseStatus (execute_llm_request req model) = some (Json.str ("success")) := by
  have htr : execute_llm_request req model =
      fs.map mkCommandEvent ++
        [HandlerAction.respond (successBody (objGetD kvs ("message") (Json.str (""))))] := by
    simp only [execute_llm_request, hm, hp]
    exact handleParsedObj kvs fs hf
  constructor
  · rw [htr]
    exact List.mem_append_left _ (List.mem_map.mpr ⟨Json.str c, hc, rfl⟩)
  · rw [htr]
    exact responseStatusEmitsSucc fs _

/-- Claim C1 amended, witnessed on the scenario-3 input. -/
theorem C1_amended_witness :
    mkCommandEvent (Json.str ("delete_everything()")) ∈
      execute_llm_request req0 (constModel scen3Text) ∧
    responseStatus (execute_llm_request req0 (constModel scen3Text)) =
      some (Json.str ("success")) :=
  C1_amended req0 (constModel scen3Text) scen3Text
    [("message", Json.str ("ok")),
     ("functions", Json.arr [Json.str ("delete_everything()")])]
    [Json.str ("delete_everything()")] ("delete_everything()")
    rfl rfl rfl (List.mem_cons_self _ _) (by decide)

/-- Claim C2 counterexample: the model output `{}` parses as JSON but has
neither the `message` nor the `functions` key, yet the gateway returns status
`success` with an empty message instead of a `MalformedResponseError`. -/
theorem C2_counterexample :
    execute_llm_request req0 (constModel emptyObjText) =
      [HandlerAction.respond (successBody (Json.str ("")))] ∧
    responseStatus (execute_llm_request req0 (constModel emptyObjText)) =
      some (Json.str ("success")) :=
  ⟨rfl, rfl⟩

/-- Claim C2 (amended): missing keys are not errors.  When the model
invocation succeeds, the gateway reports status `error` exactly when the
cleaned output fails to parse as JSON or parses to a non-object; a parsed
object — with or without `message`/`functions` — always yields `success`. -/
theorem C2_amended (req : LLMRequest) (model : String → ModelOutcome) (text : String)
    (hm : model (buildPrompt req.data req.message) = ModelOutcome.ok text) :
    responseStatus (execute_llm_request req model) = some (Json.str ("error")) ↔
      parsesToObj (parseJson (cleanResponse text.data)) = false := by
  cases hp : parseJson (cleanResponse text.data) with
  | none =>
    have hgoal : execute_llm_request req model =
        [HandlerAction.respond (errorBody jsonDecodeErrMsg)] := by
      simp only [execute_llm_request, hm, hp]
    rw [hgoal]
    constructor
    · intro _
      rfl
    · intro _
      exact statusErrorBody _
  | some rj =>
    have hgoal : execute_llm_request req model = handleParsed rj := by
      simp only [execute_llm_request, hm, hp]
    rw [hgoal]
    simp only [parsesToObj]
    cases hobj : jIsObj rj with
    | true =>
      cases rj with
      | obj kvs =>
        rw [statusHandleParsedObj kvs]
        constructor
        · intro h
          simp only [Option.some.injEq, Json.str.injEq] at h
          exact absurd h (by decide)
        · intro h
          exact absurd h (by simp [jIsObj])
      | null => simp [jIsObj] at hobj
      | bool b => simp [jIsObj] at hobj
      | num n => simp [jIsObj] at hobj
      | str s2 => simp [jIsObj] at hobj
      | arr xs => simp [jIsObj] at hobj
    | false =>
      constructor
      · intro _
        rfl
      · intro _
        exact statusHandleParsedNonObj rj hobj

/-- Claim C2 amended, witnessed on the keyless object output `{}`. -/
theorem C2_amended_witness :
    responseStatus (execute_llm_request req0 (constModel emptyObjText)) =
      some (Json.str ("error")) ↔
    parsesToObj (parseJson (cleanResponse emptyObjText.data)) = false :=
  C2_amended req0 (constModel emptyObjText) emptyObjText rfl

/-- Claim C3: for a validated plan — a parsed object whose `functions` key
holds a list `fs` of `N` call values — the dispatch loop emits exactly `N`
`execute_command` events, one per entry, in the order of `fs`, each carrying
the entry as its `command` field. -/
theorem C3_dispatch_order (req : LLMRequest) (model : String → ModelOutcome)
    (text : String) (kvs : List (String × Json)) (fs : List Json) (N : Nat)
    (hm : model (buildPrompt req.data req.message) = ModelOutcome.ok text)
    (hp : parseJson (cleanResponse text.data) = some (Json.obj kvs))
    (hf : objGet kvs ("functions") = some (Json.arr fs))
    (hN : fs.length = N) :
    traceEmits (execute_llm_request req model) = fs.map mkCmdJson ∧
    (traceEmits (execute_llm_request req model)).length = N := by
  have htr : execute_llm_request req model =
      fs.map mkCommandEvent ++
        [HandlerAction.respond (successBody (objGetD kvs ("message") (Json.str (""))))] := by
    simp only [execute_llm_request, hm, hp]
    exact handleParsedObj kvs fs hf
  have he : traceEmits (execute_llm_request req model) = fs.map mkCmdJson := by
    rw [htr, traceEmitsAppend, traceEmitsMapCmd]
    simp [traceEmits]
  refine ⟨he, ?_⟩
  rw [he, List.length_map]
  exact hN

/-- Claim C3, witnessed on the scenario-1 two-operation plan. -/
theorem C3_dispatch_order_witness :
    traceEmits (execute_llm_request req0 (constModel scen1Text)) =
      [Json.str ("sum_col(\x27A\x27)"),
       Json.str ("update_cell(\x27B\x27, 1, \x27SUM_RESULT\x27)")].map mkCmdJson ∧
    (traceEmits (execute_llm_request req0 (constModel scen1Text))).length = 2 :=
  C3_dispatch_order req0 (constModel scen1Text) scen1Text
    [("message", Json.str ("Done")),
     ("functions", Json.arr [Json.str ("sum_col(\x27A\x27)"),
       Json.str ("update_cell(\x27B\x27, 1, \x27SUM_RESULT\x27)")])]
    [Json.str ("sum_col(\x27A\x27)"), Json.str ("update_cell(\x27B\x27, 1, \x27SUM_RESULT\x27)")]
    2 rfl rfl rfl rfl

/-- Claim C4: when the cleaned model text does not parse as JSON, the handler
returns the decode error as a `{status: error}` body and emits zero
`execute_command` events. -/
theorem C4_parse_failure (req : LLMRequest) (model : String → ModelOutcome) (text : String)
    (hm : model (buildPrompt req.data req.message) = ModelOutcome.ok text)
    (hp : parseJson (cleanResponse text.data) = none) :
    execute_llm_request req model = [HandlerAction.respond (errorBody jsonDecodeErrMsg)] ∧
    traceEmits (execute_llm_request req model) = [] ∧
    responseStatus (execute_llm_request req model) = some (Json.str ("error")) := by
  have htr : execute_llm_request req model =
      [HandlerAction.respond (errorBody jsonDecodeErrMsg)] := by
    simp only [execute_llm_request, hm, hp]
  refine ⟨htr, ?_, ?_⟩
  · rw [htr]
    rfl
  · rw [htr]
    exact statusErrorBody _

/-- Claim C4, witnessed on non-JSON model text. -/
theorem C4_parse_failure_witness :
    execute_llm_request req0 (constModel ("I cannot help with that.")) =
      [HandlerAction.respond (errorBody jsonDecodeErrMsg)] ∧
    traceEmits (execute_llm_request req0 (constModel ("I cannot help with that."))) = [] ∧
    responseStatus (execute_llm_request req0 (constModel ("I cannot help with that."))) =
      some (Json.str ("error")) :=
  C4_parse_failure req0 (constModel ("I cannot help with that."))
    ("I cannot help with that.") rfl rfl

/-- Claim C5: for every request, model outcome and response text, the handler
returns exactly one response body, of shape `{status, message}` with status
either `success` or `error`; every failure inside the `try` block is caught
and converted, so no fault escapes to the caller. -/
theorem C5_response_shape (req : LLMRequest) (model : String → ModelOutcome) :
    ∃ (st : String) (m : Json),
      traceResponses (execute_llm_request req model) =
        [Json.obj [("status", Json.str st), ("message", m)]] ∧
      (st = "success" ∨ st = "error") := by
  cases hm : model (buildPrompt req.data req.message) with
  | fail e =>
    have hgoal : execute_llm_request req model = [HandlerAction.respond (errorBody e)] := by
      simp only [execute_llm_request, hm]
    exact ⟨"error", Json.str e, by rw [hgoal]; rfl, Or.inr rfl⟩
  | ok text =>
    cases hp : parseJson (cleanResponse text.data) with
    | none =>
      have hgoal : execute_llm_request req model =
          [HandlerAction.respond (errorBody jsonDecodeErrMsg)] := by
        simp only [execute_llm_request, hm, hp]
      exact ⟨"error", Json.str jsonDecodeErrMsg, by rw [hgoal]; rfl, Or.inr rfl⟩
    | some rj =>
      have hgoal : execute_llm_request req model = handleParsed rj := by
        simp only [execute_llm_request, hm, hp]
      rw [hgoal]
      cases rj with
      | obj kvs =>
        refine ⟨"success", objGetD kvs ("message") (Json.str ("")), ?_, Or.inl rfl⟩
        cases hget : objGet kvs ("functions") with
        | some v =>
          cases v with
          | arr fs =>
            rw [handleParsedObj kvs fs hget, traceResponsesAppend, traceResponsesMapCmd]
            rfl
          | null => rw [handleParsedObjNoFun kvs (by rw [hget]; rfl)]; rfl
          | bool b => rw [handleParsedObjNoFun kvs (by rw [hget]; rfl)]; rfl
          | num n => rw [handleParsedObjNoFun kvs (by rw [hget]; rfl)]; rfl
          | str s2 => rw [handleParsedObjNoFun kvs (by rw [hget]; rfl)]; rfl
          | obj o => rw [handleParsedObjNoFun kvs (by rw [hget]; rfl)]; rfl
        | none => rw [handleParsedObjNoFun kvs (by rw [hget]; rfl)]; rfl
      | str s =>
        by_cases hh : hasSubstr ("functions".data) s.data = true
        · refine ⟨"error", Json.str strIndicesMsg, ?_, Or.inr rfl⟩
          simp only [handleParsed]
          rw [if_pos hh]
          rfl
        · refine ⟨"error", Json.str (noGetAttrMsg ("str")), ?_, Or.inr rfl⟩
          simp only [handleParsed]
          rw [if_neg hh]
          rfl
      | arr xs =>
        by_cases hh : xs.any eqStrFunctions = true
        · refine ⟨"error", Json.str listIndicesMsg, ?_, Or.inr rfl⟩
          simp only [handleParsed]
          rw [if_pos hh]
          rfl
        · refine ⟨"error", Json.str (noGetAttrMsg ("list")), ?_, Or.inr rfl⟩
          simp only [handleParsed]
          rw [if_neg hh]
          rfl
      | null => exact ⟨"error", Json.str (notIterableMsg ("NoneType")), rfl, Or.inr rfl⟩
      | bool b => exact ⟨"error", Json.str (notIterableMsg ("bool")), rfl, Or.inr rfl⟩
      | num n => exact ⟨"error", Json.str (notIterableMsg ("int")), rfl, Or.inr rfl⟩

/-- Claim C6 counterexample: the text `" a"` contains no fence markup, yet
the cleaning step is not a no-op on it — `str.strip()` removes the leading
whitespace. -/
theorem C6_counterexample :
    hasSubstr ("```".data) (" a".data) = false ∧
    cleanResponse (" a".data) ≠ (" a".data) := by
  constructor
  · decide
  · decide

/-- Claim C6 (amended): cleaning is a no-op on texts with no fence markup
and no leading or trailing whitespace; and for a whitespace-trimmed JSON
blob containing no backtick, cleaning the canonically fenced wrapping
recovers the blob, so parsing after stripping agrees with parsing the
unfenced blob. -/
theorem C6_amended :
    (∀ s : List Char, hasSubstr ("```".data) s = false → pyStrip s = s →
      cleanResponse s = s) ∧
    (∀ blob : List Char, (∀ c ∈ blob, c ≠ btick) → pyStrip blob = blob →
      cleanResponse (fenceWrap blob) = blob ∧
      parseJson (cleanResponse (fenceWrap blob)) = parseJson blob) := by
  constructor
  · exact cleanNoFence
  · intro blob hb hs
    have h := cleanFence blob hb hs
    exact ⟨h, by rw [h]⟩

/-- Claim C6 amended, witnessed on a small JSON object blob. -/
theorem C6_amended_witness :
    cleanResponse (("\x7b\"a\": 1\x7d").data) = ("\x7b\"a\": 1\x7d").data ∧
    (cleanResponse (fenceWrap (("\x7b\"a\": 1\x7d").data)) = ("\x7b\"a\": 1\x7d").data ∧
     parseJson (cleanResponse (fenceWrap (("\x7b\"a\": 1\x7d").data))) =
       parseJson (("\x7b\"a\": 1\x7d").data)) :=
  ⟨C6_amended.1 (("\x7b\"a\": 1\x7d").data) (by decide) (by decide),
   C6_amended.2 (("\x7b\"a\": 1\x7d").data) (by decide) (by decide)⟩

/-- Claim C7: on a successfully translated response — an object carrying a
`message` string and a `functions` list — the handler's trace is exactly the
broadcasts of all operations, in order, followed by the
`{status: success, message}` response carrying the object's own message, so
the broadcast is triggered before the response is returned. -/
theorem C7_success_message (req : LLMRequest) (model : String → ModelOutcome)
    (text : String) (kvs : List (String × Json)) (fs : List Json) (msg : String)
    (hm : model (buildPrompt req.data req.message) = ModelOutcome.ok text)
    (hp : parseJson (cleanResponse text.data) = some (Json.obj kvs))
    (hmsg : objGet kvs ("message") = some (Json.str msg))
    (hf : objGet kvs ("functions") = some (Json.arr fs)) :
    execute_llm_request req model =
      fs.map mkCommandEvent ++
        [HandlerAction.respond (successBody (Json.str msg))] := by
  have htr : execute_llm_request req model =
      fs.map mkCommandEvent ++
        [HandlerAction.respond (successBody (objGetD kvs ("message") (Json.str (""))))] := by
    simp only [execute_llm_request, hm, hp]
    exact handleParsedObj kvs fs hf
  rw [htr]
  simp only [objGetD, hmsg, Option.getD_some]

/-- Claim C7, witnessed on the scenario-1 response. -/
theorem C7_success_message_witness :
    execute_llm_request req0 (constModel scen1Text) =
      [Json.str ("sum_col(\x27A\x27)"),
       Json.str ("update_cell(\x27B\x27, 1, \x27SUM_RESULT\x27)")].map mkCommandEvent ++
        [HandlerAction.respond (successBody (Json.str ("Done")))] :=
  C7_success_message req0 (constModel scen1Text) scen1Text
    [("message", Json.str ("Done")),
     ("functions", Json.arr [Json.str ("sum_col(\x27A\x27)"),
       Json.str ("update_cell(\x27B\x27, 1, \x27SUM_RESULT\x27)")])]
    [Json.str ("sum_col(\x27A\x27)"), Json.str ("update_cell(\x27B\x27, 1, \x27SUM_RESULT\x27)")]
    "Done" rfl rfl rfl rfl

/-- Claim C8 counterexample: the prompt's operation catalog has 23 entries,
not the 20 the claim asserts. -/
theorem C8_counterexample :
    promptFunctionLines.length = 23 ∧ ¬ promptFunctionLines.length = 20 := by
  decide

set_option maxRecDepth 40000 in
/-- Claim C8 (amended): for every snapshot and user message — the empty
snapshot included — the built prompt contains the role statement, the
`json.dumps(…, indent=2)` serialization of the snapshot, all 23 operation
catalog lines with signatures, the literal user message, the two-key output
contract instruction, and the worked example. -/
theorem C8_amended (data : List (String × Json)) (msg : String) :
    hasSubstr (("You are a spreadsheet assistant").data) (buildPrompt data msg).data = true ∧
    hasSubstr (pyDumps data).data (buildPrompt data msg).data = true ∧
    promptFunctionLines.length = 23 ∧
    (∀ l ∈ promptFunctionLines, hasSubstr l.data (buildPrompt data msg).data = true) ∧
    hasSubstr msg.data (buildPrompt data msg).data = true ∧
    hasSubstr
      (("Your response must be a JSON object with two keys: \x27message\x27 and \x27functions\x27.").data)
      (buildPrompt data msg).data = true ∧
    hasSubstr (("Example Response:").data) (buildPrompt data msg).data = true := by
  have hd := buildPromptData data msg
  refine ⟨?_, ?_, by decide, ?_, ?_, ?_, ?_⟩
  · rw [hd]
    exact hasSubstrAppR _ _ _ (by decide)
  · rw [hd]
    exact hasSubstrAppL _ _ _ (hasSubstrHere _ _)
  · intro l hl
    rw [hd]
    exact hasSubstrAppL _ _ _ (hasSubstrAppL _ _ _ (hasSubstrAppL _ _ _
      (hasSubstrAppR _ _ _ (hasSubstrJoin l promptFunctionLines hl))))
  · rw [hd]
    exact hasSubstrAppL _ _ _ (hasSubstrAppL _ _ _ (hasSubstrAppL _ _ _
      (hasSubstrAppL _ _ _ (hasSubstrAppL _ _ _ (hasSubstrHere _ _)))))
  · rw [hd]
    exact hasSubstrAppL _ _ _ (hasSubstrAppL _ _ _ (hasSubstrAppL _ _ _
      (hasSubstrAppL _ _ _ (hasSubstrAppL _ _ _ (hasSubstrAppL _ _ _ (by decide))))))
  · rw [hd]
    exact hasSubstrAppL _ _ _ (hasSubstrAppL _ _ _ (hasSubstrAppL _ _ _
      (hasSubstrAppL _ _ _ (hasSubstrAppL _ _ _ (hasSubstrAppL _ _ _ (by decide))))))

/-- Claim C9: when the parsed response is an object whose `functions` key is
absent or not a list, the handler emits zero events and still returns status
`success` with the object's `message` value, defaulting to the empty string. -/
theorem C9_missing_functions (req : LLMRequest) (model : String → ModelOutcome)
    (text : String) (kvs : List (String × Json))
    (hm : model (buildPrompt req.data req.message) = ModelOutcome.ok text)
    (hp : parseJson (cleanResponse text.data) = some (Json.obj kvs))
    (hf : isArrVal (objGet kvs ("functions")) = false) :
    execute_llm_request req model =
      [HandlerAction.respond (successBody (objGetD kvs ("message") (Json.str (""))))] ∧
    traceEmits (execute_llm_request req model) = [] ∧
    responseStatus (execute_llm_request req model) = some (Json.str ("success")) := by
  have htr : execute_llm_request req model =
      [HandlerAction.respond (successBody (objGetD kvs ("message") (Json.str (""))))] := by
    simp only [execute_llm_request, hm, hp]
    exact handleParsedObjNoFun kvs hf
  refine ⟨htr, ?_, ?_⟩
  · rw [htr]
    rfl
  · rw [htr]
    exact statusSuccessBody _

/-- Claim C9, witnessed on the keyless object output `{}`. -/
theorem C9_missing_functions_witness :
    execute_llm_request req0 (constModel emptyObjText) =
      [HandlerAction.respond (successBody (objGetD [] "message" (Json.str (""))))] ∧
    traceEmits (execute_llm_request req0 (constModel emptyObjText)) = [] ∧
    responseStatus (execute_llm_request req0 (constModel emptyObjText)) =
      some (Json.str ("success")) :=
  C9_missing_functions req0 (constModel emptyObjText) emptyObjText [] rfl rfl rfl

/-- Claim C10: the `function_result` handler completes normally exactly when
the payload is a JSON object containing the key `result`; on any other
payload the unguarded `data['result']` subscript raises. -/
theorem C10_result_guard (sid : String) (d : Json) :
    (handle_function_result sid d).isSome = true ↔
      ∃ kvs, d = Json.obj kvs ∧ (objGet kvs ("result")).isSome = true := by
  cases d with
  | obj kvs =>
    constructor
    · intro h
      exact ⟨kvs, rfl, h⟩
    · rintro ⟨kvs2, he, h2⟩
      injection he with he2
      rw [he2]
      exact h2
  | null =>
    constructor
    · intro h
      exact Bool.noConfusion h
    · rintro ⟨kvs, he, -⟩
      exact Json.noConfusion he
  | bool b =>
    constructor
    · intro h
      exact Bool.noConfusion h
    · rintro ⟨kvs, he, -⟩
      exact Json.noConfusion he
  | num n =>
    constructor
    · intro h
      exact Bool.noConfusion h
    · rintro ⟨kvs, he, -⟩
      exact Json.noConfusion he
  | str s =>
    constructor
    · intro h
      exact Bool.noConfusion h
    · rintro ⟨kvs, he, -⟩
      exact Json.noConfusion he
  | arr xs =>
    constructor
    · intro h
      exact Bool.noConfusion h
    · rintro ⟨kvs, he, -⟩
      exact Json.noConfusion he
